import Mathlib

/-!
Verification of the OIOO ("One-In-One-Out") container from `src/lib.rs`.

The container keeps a primary `store` of `Option`-slots (an occupied slot
`some item` is always followed by `social_distance = 6` empty `none` slots)
and an overflow `queue` for items arriving while the store is at capacity.
`one_in` inserts an item, `one_out` removes a uniformly random occupied item.
The random draw of `one_out` is modelled as an explicit parameter `k`
(the value produced by `gen_range(0, occupied_count)`), and the
possibility of a runtime panic (out-of-bounds index, out-of-bounds drain,
or an empty `gen_range` range) is modelled by `one_out` returning `none`
at the outer `Option` layer.
-/

/-- The `Phase` enum of the source: dictates the capacity of an OIOO
instance.  `one` carries `occupancy` and `is_essential`; `two` carries
`occupancy` alone. -/
inductive Phase where
  | one (occupancy : Nat) ( is_essential : Bool)
  | two (occupancy : Nat)
deriving DecidableEq, Repr

/-- The OIOO container: primary `store` of slots (`some item` = occupied,
`none` = empty spacing slot), overflow `queue`, the spacing constant
`social_distance`, and the frozen `capacity`. -/
structure OIOO (T : Type) where
  store : List (Option T)
  queue : List T
  social_distance : Nat
  capacity : Nat
deriving DecidableEq, Repr

namespace OIOO

variable {T : Type}

/-- `OIOO::new`: fresh container with `social_distance = 6` and capacity
derived from the phase (`occupancy / 4` for an essential Phase One, `0` for a
non-essential Phase One, `occupancy / 2` for Phase Two). -/
def new (T : Type) (phase : Phase) : OIOO T :=
  { store := []
    queue := []
    social_distance := 6
    capacity :=
      match phase with
      | Phase.one occupancy ess => if ess then occupancy / 4 else 0
      | Phase.two occupancy => occupancy / 2 }

/-- `OIOO::at_capacity`: `(store.len() / (social_distance + 1)) >= capacity`. -/
def at_capacity (o : OIOO T) : Bool :=
  decide (o.capacity ≤ o.store.length / (o.social_distance + 1))

/-- `OIOO::add_social_distance`: push `social_distance` empty slots onto the
end of the store. -/
def add_social_distance (o : OIOO T) : OIOO T :=
  { o with store := o.store ++ List.replicate o.social_distance none }

/-- `OIOO::one_in`: if the store is not at capacity, push `Some(item)` and the
spacing slots onto the store; otherwise push the item onto the queue. -/
def one_in (o : OIOO T) (item : T) : OIOO T :=
  if !o.at_capacity then
    add_social_distance { o with store := o.store ++ [some item] }
  else
    { o with queue := o.queue ++ [item] }

/-- The occupied-slot count computed inside `one_out` (and the tests):
`store.iter().filter(|x| x.is_some()).collect::<Vec<_>>().len()`. -/
def occupied_count (o : OIOO T) : Nat :=
  (o.store.filter (fun x => x.isSome)).length

/-- `OIOO::one_out`, with the random draw `k` (the result of
`gen_range(0, occupied_count)`) passed in explicitly.  The outer `Option`
models panics: `none` is returned when the source would panic —
`gen_range(0, 0)` on a non-empty store, `store[out_index]` out of bounds, or
`drain` past the end of the store.  Otherwise `some (r, o')` gives the
returned `Option<T>` and the post-state. -/
def one_out (o : OIOO T) (k : Nat) : Option (Option T × OIOO T) :=
  if o.store.length = 0 then some (none, o)
  else if o.occupied_count = 0 then none
  else
    let out_index := k * (o.social_distance + 1)
    match o.store[out_index]? with
    | none => none
    | some none => some (none, o)
    | some (some item) =>
      let social_distance_index := out_index + o.social_distance + 1
      if social_distance_index ≤ o.store.length then
        let o1 : OIOO T :=
          { o with store := o.store.take out_index ++ o.store.drop social_distance_index }
        match o1.queue with
        | [] => some (some item, o1)
        | q :: qs => some (some item, one_in { o1 with queue := qs } q)
      else none

/-- The items currently held in occupied slots of the store, in store order. -/
def storeItems (o : OIOO T) : List T :=
  o.store.filterMap id

/-- Every item currently inside the container: occupied store slots followed
by the overflow queue. -/
def contentsList (o : OIOO T) : List T :=
  o.storeItems ++ o.queue

/-- The multiset of items currently inside the container. -/
def contents (o : OIOO T) : Multiset T :=
  (o.contentsList : Multiset T)

/-- Feed a list of items into the container, one `one_in` call each, in
order. -/
def one_in_all (o : OIOO T) (xs : List T) : OIOO T :=
  xs.foldl one_in o

end OIOO

/-- The canonical padded layout: each item becomes an occupied slot followed
by `sd` empty slots. -/
def blocksOf {T : Type} (sd : Nat) : List T → List (Option T)
  | [] => []
  | x :: xs => (some x :: List.replicate sd none) ++ blocksOf sd xs

section BlocksOf

variable {T : Type} (sd : Nat)

@[simp] theorem blocksOf_nil : blocksOf sd ([] : List T) = [] := rfl

theorem blocksOf_cons (x : T) (xs : List T) :
    blocksOf sd (x :: xs) = (some x :: List.replicate sd none) ++ blocksOf sd xs := rfl

theorem blocksOf_append (xs ys : List T) :
    blocksOf sd (xs ++ ys) = blocksOf sd xs ++ blocksOf sd ys := by
  induction xs with
  | nil => simp
  | cons x xs ih => simp [blocksOf_cons, ih]

@[simp] theorem length_blocksOf (xs : List T) :
    (blocksOf sd xs).length = xs.length * (sd + 1) := by
  induction xs with
  | nil => simp
  | cons x xs ih => simp [blocksOf_cons, ih]; ring

@[simp] theorem filterMap_id_blocksOf (xs : List T) :
    (blocksOf sd xs).filterMap id = xs := by
  induction xs with
  | nil => simp
  | cons x xs ih =>
    simp [blocksOf_cons, List.filterMap_append, ih, List.filterMap_replicate]

@[simp] theorem filter_isSome_blocksOf (xs : List T) :
    (blocksOf sd xs).filter (fun x => x.isSome) = xs.map some := by
  induction xs with
  | nil => simp
  | cons x xs ih =>
    simp [blocksOf_cons, List.filter_append, ih, List.filter_replicate]

theorem drop_len_add {α : Type} (l₁ l₂ : List α) (m : Nat) :
    (l₁ ++ l₂).drop (l₁.length + m) = l₂.drop m := by
  induction l₁ with
  | nil => simp
  | cons a l ih => simp [Nat.succ_add, ih]

theorem take_len_add {α : Type} (l₁ l₂ : List α) (m : Nat) :
    (l₁ ++ l₂).take (l₁.length + m) = l₁ ++ l₂.take m := by
  induction l₁ with
  | nil => simp
  | cons a l ih => simpa [Nat.succ_add] using ih

theorem drop_blocksOf (k : Nat) (xs : List T) :
    (blocksOf sd xs).drop (k * (sd + 1)) = blocksOf sd (xs.drop k) := by
  induction k generalizing xs with
  | zero => simp
  | succ k ih =>
    cases xs with
    | nil => simp
    | cons x xs =>
      have harith : (k + 1) * (sd + 1) = (sd + 1) + k * (sd + 1) := by ring
      have h2 := drop_len_add (some x :: List.replicate sd (none : Option T))
        (blocksOf sd xs) (k * (sd + 1))
      simp only [List.length_cons, List.length_replicate] at h2
      rw [blocksOf_cons, harith, h2, ih, List.drop_succ_cons]

theorem take_blocksOf (k : Nat) (xs : List T) :
    (blocksOf sd xs).take (k * (sd + 1)) = blocksOf sd (xs.take k) := by
  induction k generalizing xs with
  | zero => simp
  | succ k ih =>
    cases xs with
    | nil => simp
    | cons x xs =>
      have harith : (k + 1) * (sd + 1) = (sd + 1) + k * (sd + 1) := by ring
      have h2 := take_len_add (some x :: List.replicate sd (none : Option T))
        (blocksOf sd xs) (k * (sd + 1))
      simp only [List.length_cons, List.length_replicate] at h2
      rw [blocksOf_cons, harith, h2, ih, List.take_succ_cons, blocksOf_cons]

theorem getElem?_blocksOf (k : Nat) (xs : List T) :
    (blocksOf sd xs)[k * (sd + 1)]? = xs[k]?.map some := by
  have h0 : (blocksOf sd xs)[k * (sd + 1)]? = ((blocksOf sd xs).drop (k * (sd + 1)))[0]? := by
    rw [List.getElem?_drop]
    simp
  rw [h0, drop_blocksOf]
  cases hd : xs.drop k with
  | nil =>
    have : xs.length ≤ k := by
      by_contra hlt
      push_neg at hlt
      have := congrArg List.length hd
      simp at this
      omega
    simp [List.getElem?_eq_none this]
  | cons y ys =>
    have hy : xs[k]? = some y := by
      have h1 : xs[k]? = (xs.drop k)[0]? := by
        rw [List.getElem?_drop]
        simp
      rw [h1, hd]
      simp
    rw [hy, blocksOf_cons]
    simp

theorem isSome_blocksOf_mod {xs : List T} {i : Nat} {x : T}
    (h : (blocksOf sd xs)[i]? = some (some x)) : i % (sd + 1) = 0 := by
  induction xs generalizing i with
  | nil => simp at h
  | cons y ys ih =>
    rw [blocksOf_cons] at h
    rcases Nat.lt_or_ge i (sd + 1) with hlt | hge
    · cases i with
      | zero => simp
      | succ j =>
        have hj : j < sd := by omega
        have hcontra : ((some y :: List.replicate sd (none : Option T)) ++
            blocksOf sd ys)[j + 1]? = some none := by
          rw [List.getElem?_append_left (by simp; omega)]
          simp [hj]
        rw [hcontra] at h
        simp at h
    · obtain ⟨j, rfl⟩ : ∃ j, i = (sd + 1) + j := ⟨i - (sd + 1), by omega⟩
      have hlen : (some y :: List.replicate sd (none : Option T)).length = sd + 1 := by simp
      rw [List.getElem?_append_right (by omega)] at h
      simp only [hlen] at h
      have hj : ((sd + 1) + j) - (sd + 1) = j := by omega
      rw [hj] at h
      rw [Nat.add_mod_left]
      exact ih h

end BlocksOf

namespace OIOO

variable {T : Type}

/-- Well-formedness: the invariant holding in every state reachable through
the public operations.  The store is a padded block layout with spacing 6,
the occupied count never exceeds the capacity, and a non-empty queue forces
the store to be exactly at capacity. -/
structure WF (o : OIOO T) : Prop where
  sd_eq : o.social_distance = 6
  blocky : ∃ items : List T, o.store = blocksOf 6 items
  cap_le : o.occupied_count ≤ o.capacity
  queue_cap : o.queue ≠ [] → o.occupied_count = o.capacity

theorem occupied_count_blocky (o : OIOO T) (items : List T)
    (hst : o.store = blocksOf 6 items) : o.occupied_count = items.length := by
  simp [occupied_count, hst]

theorem storeItems_blocky (o : OIOO T) (items : List T)
    (hst : o.store = blocksOf 6 items) : o.storeItems = items := by
  simp [storeItems, hst]

theorem at_capacity_blocky (o : OIOO T) (items : List T)
    (hst : o.store = blocksOf 6 items) (hsd : o.social_distance = 6) :
    o.at_capacity = decide (o.capacity ≤ items.length) := by
  rw [at_capacity, hst, hsd, length_blocksOf]
  exact decide_eq_decide.mpr (by omega)

theorem one_in_of_lt (o : OIOO T) (x : T) (items : List T)
    (hst : o.store = blocksOf 6 items) (hsd : o.social_distance = 6)
    (hlt : items.length < o.capacity) :
    o.one_in x = { o with store := blocksOf 6 (items ++ [x]) } := by
  have hcap : o.at_capacity = false := by
    rw [at_capacity_blocky o items hst hsd]
    simp
    omega
  simp [one_in, hcap, add_social_distance, hst, hsd, blocksOf_append, blocksOf_cons]

theorem one_in_of_ge (o : OIOO T) (x : T) (items : List T)
    (hst : o.store = blocksOf 6 items) (hsd : o.social_distance = 6)
    (hge : o.capacity ≤ items.length) :
    o.one_in x = { o with queue := o.queue ++ [x] } := by
  have hcap : o.at_capacity = true := by
    rw [at_capacity_blocky o items hst hsd]
    simpa using hge
  simp [one_in, hcap]

end OIOO

namespace OIOO

variable {T : Type}

/-- Complete characterization of `one_out` on a blocky state with a valid
draw `k`: it returns the `k`-th occupied item, removes its block (compacting
the store), and moves the queue front (if any) into the store. -/
theorem one_out_blocky (o : OIOO T) (items : List T) (k : Nat)
    (hst : o.store = blocksOf 6 items) (hsd : o.social_distance = 6)
    (hk : k < items.length)
    (hq : o.queue ≠ [] → items.length = o.capacity) :
    o.one_out k = some (some items[k],
      { o with store := blocksOf 6 ((items.take k ++ items.drop (k + 1)) ++ o.queue.take 1),
               queue := o.queue.drop 1 }) := by
  have hlen : o.store.length = items.length * (6 + 1) := by rw [hst, length_blocksOf]
  have hlen0 : ¬ o.store.length = 0 := by omega
  have hocc : o.occupied_count = items.length := occupied_count_blocky o items hst
  have hocc0 : ¬ o.occupied_count = 0 := by omega
  have hget : o.store[k * (o.social_distance + 1)]? = some (some items[k]) := by
    rw [hst, hsd, getElem?_blocksOf, List.getElem?_eq_getElem hk]
    rfl
  have hsdi : k * (o.social_distance + 1) + o.social_distance + 1 ≤ o.store.length := by
    rw [hsd]
    omega
  have htake : o.store.take (k * (o.social_distance + 1)) = blocksOf 6 (items.take k) := by
    rw [hst, hsd, take_blocksOf]
  have hdrop : o.store.drop (k * (o.social_distance + 1) + o.social_distance + 1) =
      blocksOf 6 (items.drop (k + 1)) := by
    have harith : k * (6 + 1) + 6 + 1 = (k + 1) * (6 + 1) := by ring
    rw [hsd, hst, harith, drop_blocksOf]
  cases hqe : o.queue with
  | nil =>
    simp only [one_out, hlen0, hocc0, hsdi, hget, hqe, htake, hdrop, if_true, if_false,
      ite_true, ite_false, eq_self_iff_true, not_true, not_false_iff]
    simp [hqe, ← blocksOf_append]
  | cons q qs =>
    have hmid : (items.take k ++ items.drop (k + 1)).length = items.length - 1 := by
      simp [List.length_append, List.length_take, List.length_drop]
      omega
    have hcapq : items.length = o.capacity := hq (by rw [hqe]; simp)
    simp only [one_out, hlen0, hocc0, hsdi, hget, hqe, htake, hdrop, if_true, if_false,
      ite_true, ite_false, eq_self_iff_true, not_true, not_false_iff]
    rw [← blocksOf_append]
    rw [one_in_of_lt _ q (items.take k ++ items.drop (k + 1)) rfl (by simpa using hsd)
      (by simp only [hmid]; omega)]
    simp [hqe]

end OIOO

namespace OIOO

variable {T : Type}

theorem blocksOf_ne_nil (sd : Nat) (y : T) (ys : List T) :
    blocksOf sd (y :: ys) ≠ [] := by
  rw [blocksOf_cons]
  simp

theorem one_out_of_store_nil (o : OIOO T) (k : Nat) (h : o.store = []) :
    o.one_out k = some (none, o) := by
  simp [one_out, h]

theorem WF_new (T : Type) (phase : Phase) : WF (new T phase) := by
  refine ⟨rfl, ⟨[], rfl⟩, ?_, ?_⟩
  · simp [occupied_count, new]
  · intro h
    simp [new] at h

theorem WF_one_in (o : OIOO T) (x : T) (h : WF o) : WF (o.one_in x) := by
  obtain ⟨items, hst⟩ := h.blocky
  have hocc := occupied_count_blocky o items hst
  rcases Nat.lt_or_ge items.length o.capacity with hlt | hge
  · rw [one_in_of_lt o x items hst h.sd_eq hlt]
    refine ⟨h.sd_eq, ⟨items ++ [x], rfl⟩, ?_, ?_⟩
    · rw [occupied_count_blocky _ (items ++ [x]) rfl]
      simp only [List.length_append, List.length_cons, List.length_nil]
      omega
    · intro hne
      have h2 := h.queue_cap (by simpa using hne)
      rw [hocc] at h2
      rw [occupied_count_blocky _ (items ++ [x]) rfl]
      simp only [List.length_append, List.length_cons, List.length_nil]
      omega
  · rw [one_in_of_ge o x items hst h.sd_eq hge]
    refine ⟨h.sd_eq, ⟨items, hst⟩, ?_, ?_⟩
    · rw [occupied_count_blocky { o with queue := o.queue ++ [x] } items hst]
      have hcl := h.cap_le
      rw [hocc] at hcl
      exact hcl
    · intro _
      rw [occupied_count_blocky { o with queue := o.queue ++ [x] } items hst]
      have hcl := h.cap_le
      rw [hocc] at hcl
      exact Nat.le_antisymm hcl hge

theorem WF_one_out (o : OIOO T) (k : Nat) (r : Option T) (o' : OIOO T) (h : WF o)
    (hvalid : o.store ≠ [] → k < o.occupied_count)
    (heq : o.one_out k = some (r, o')) : WF o' := by
  obtain ⟨items, hst⟩ := h.blocky
  by_cases hni : items = []
  · subst hni
    have hnil : o.store = [] := by rw [hst]; rfl
    rw [one_out_of_store_nil o k hnil] at heq
    simp only [Option.some.injEq, Prod.mk.injEq] at heq
    obtain ⟨-, ho⟩ := heq
    rw [← ho]
    exact h
  · have hlen : o.store.length = items.length * 7 := by rw [hst]; simp
    have hne : o.store ≠ [] := by
      intro hnil
      apply hni
      have h7 : items.length * 7 = 0 := by rw [← hlen, hnil]; rfl
      have h0 : items.length = 0 := by omega
      exact List.length_eq_zero.mp h0
    have hk : k < items.length := by
      have := hvalid hne
      rwa [occupied_count_blocky o items hst] at this
    have hq : o.queue ≠ [] → items.length = o.capacity := by
      intro hn
      rw [← occupied_count_blocky o items hst]
      exact h.queue_cap hn
    rw [one_out_blocky o items k hst h.sd_eq hk hq] at heq
    simp only [Option.some.injEq, Prod.mk.injEq] at heq
    obtain ⟨-, ho⟩ := heq
    rw [← ho]
    have hmid : (items.take k ++ items.drop (k + 1)).length = items.length - 1 := by
      simp only [List.length_append, List.length_take, List.length_drop]
      omega
    have hcl := h.cap_le
    rw [occupied_count_blocky o items hst] at hcl
    refine ⟨h.sd_eq, ⟨(items.take k ++ items.drop (k + 1)) ++ o.queue.take 1, rfl⟩, ?_, ?_⟩
    · rw [occupied_count_blocky _ ((items.take k ++ items.drop (k + 1)) ++ o.queue.take 1) rfl]
      rw [List.length_append, hmid]
      cases hqe : o.queue with
      | nil =>
        simp only [hqe, List.take_nil, List.length_nil]
        omega
      | cons q qs =>
        have hced := hq (by rw [hqe]; simp)
        simp only [hqe, List.take_succ_cons, List.take_zero, List.length_cons, List.length_nil]
        omega
    · intro hn
      rw [occupied_count_blocky _ ((items.take k ++ items.drop (k + 1)) ++ o.queue.take 1) rfl]
      rw [List.length_append, hmid]
      cases hqe : o.queue with
      | nil =>
        rw [hqe] at hn
        simp at hn
      | cons q qs =>
        have hced := hq (by rw [hqe]; simp)
        simp only [hqe, List.take_succ_cons, List.take_zero, List.length_cons, List.length_nil]
        omega

/-- States reachable from a freshly constructed container through the public
operations.  A `one_out` step carries the actual draw `k` produced by
`gen_range(0, occupied_count)` (so `k` is in range whenever the store is
non-empty) and the requirement that the call completed without a panic,
returning `r` and the post-state. -/
inductive Reachable : OIOO T → Prop where
  | base (phase : Phase) : Reachable (new T phase)
  | step_in (o : OIOO T) (x : T) : Reachable o → Reachable (o.one_in x)
  | step_out (o : OIOO T) (k : Nat) (r : Option T) (o' : OIOO T) :
      Reachable o → (o.store ≠ [] → k < o.occupied_count) →
      o.one_out k = some (r, o') → Reachable o'

theorem reachable_wf (o : OIOO T) (h : Reachable o) : WF o := by
  induction h with
  | base phase => exact WF_new T phase
  | step_in o x hr ih => exact WF_one_in o x ih
  | step_out o k r o' hr hvalid heq ih => exact WF_one_out o k r o' ih hvalid heq

end OIOO

namespace OIOO

variable {T : Type}

theorem capacity_one_in (o : OIOO T) (x : T) : (o.one_in x).capacity = o.capacity := by
  simp only [one_in]
  split <;> rfl

theorem sd_one_in (o : OIOO T) (x : T) : (o.one_in x).social_distance = o.social_distance := by
  simp only [one_in]
  split <;> rfl

theorem capacity_one_out (o : OIOO T) (k : Nat) (r : Option T) (o' : OIOO T)
    (heq : o.one_out k = some (r, o')) : o'.capacity = o.capacity := by
  simp only [one_out] at heq
  split at heq
  · simp only [Option.some.injEq, Prod.mk.injEq] at heq
    rw [← heq.2]
  · split at heq
    · simp at heq
    · split at heq
      · simp at heq
      · simp only [Option.some.injEq, Prod.mk.injEq] at heq
        rw [← heq.2]
      · split at heq
        · split at heq
          · simp only [Option.some.injEq, Prod.mk.injEq] at heq
            rw [← heq.2]
          · simp only [Option.some.injEq, Prod.mk.injEq] at heq
            rw [← heq.2, capacity_one_in]
        · simp at heq

theorem one_in_of_lt_mk (items qs : List T) (cap : Nat) (x : T)
    (hlt : items.length < cap) :
    (OIOO.mk (blocksOf 6 items) qs 6 cap).one_in x =
      OIOO.mk (blocksOf 6 (items ++ [x])) qs 6 cap := by
  rw [one_in_of_lt _ x items rfl rfl hlt]

theorem one_in_of_ge_mk (items qs : List T) (cap : Nat) (x : T)
    (hge : cap ≤ items.length) :
    (OIOO.mk (blocksOf 6 items) qs 6 cap).one_in x =
      OIOO.mk (blocksOf 6 items) (qs ++ [x]) 6 cap := by
  rw [one_in_of_ge _ x items rfl rfl hge]

theorem one_in_all_nil (o : OIOO T) : one_in_all o [] = o := rfl

theorem one_in_all_cons (o : OIOO T) (x : T) (xs : List T) :
    one_in_all o (x :: xs) = one_in_all (o.one_in x) xs := rfl

/-- Filling a blocky state: the first `cap - items.length` fed items extend
the store, the rest extend the queue in order. -/
theorem one_in_all_fill (xs : List T) (items qs : List T) (cap : Nat)
    (hq : qs ≠ [] → cap ≤ items.length) :
    one_in_all (OIOO.mk (blocksOf 6 items) qs 6 cap) xs =
      OIOO.mk (blocksOf 6 (items ++ xs.take (cap - items.length)))
        (qs ++ xs.drop (cap - items.length)) 6 cap := by
  induction xs generalizing items qs with
  | nil => simp [one_in_all]
  | cons x xs ih =>
    rw [one_in_all_cons]
    by_cases hlt : items.length < cap
    · have hqe : qs = [] := by
        by_contra hne
        have := hq hne
        omega
      subst hqe
      rw [one_in_of_lt_mk items [] cap x hlt]
      have ihx := ih (items ++ [x]) [] (fun hc => absurd rfl hc)
      obtain ⟨d, hd⟩ : ∃ d, cap - items.length = d + 1 := ⟨cap - items.length - 1, by omega⟩
      have hd2 : cap - (items ++ [x]).length = d := by
        simp only [List.length_append, List.length_cons, List.length_nil]
        omega
      rw [hd2] at ihx
      rw [ihx, hd]
      simp [List.take_succ_cons, List.drop_succ_cons, List.append_assoc]
    · have hge : cap ≤ items.length := by omega
      rw [one_in_of_ge_mk items qs cap x hge]
      have ihx := ih items (qs ++ [x]) (fun _ => hge)
      rw [ihx]
      have h0 : cap - items.length = 0 := by omega
      rw [h0]
      simp
end OIOO

namespace OIOO

variable {T : Type}

/-- Feeding `xs` into a fresh container: the first `capacity` items fill the
store in order, the remainder queues in order. -/
theorem one_in_all_new (T : Type) (phase : Phase) (xs : List T) :
    one_in_all (new T phase) xs =
      OIOO.mk (blocksOf 6 (xs.take (new T phase).capacity))
        (xs.drop (new T phase).capacity) 6 (new T phase).capacity := by
  have h := one_in_all_fill xs [] [] (new T phase).capacity (fun hc => absurd rfl hc)
  simp only [blocksOf_nil, List.nil_append, List.length_nil, Nat.sub_zero] at h
  exact h

/-- `one_in` adds exactly the new item to the container contents. -/
theorem contentsList_one_in (o : OIOO T) (x : T) :
    List.Perm (contentsList (o.one_in x)) (x :: contentsList o) := by
  rw [one_in]
  cases hc : o.at_capacity with
  | false =>
    simp only [hc, Bool.not_false, if_true, ite_true]
    rw [contentsList, storeItems, add_social_distance]
    simp only [List.filterMap_append, List.filterMap_replicate]
    rw [contentsList, storeItems]
    simp only [List.filterMap_cons, List.filterMap_nil, id]
    simp only [List.append_assoc, List.nil_append, List.append_nil]
    exact List.perm_middle
  | true =>
    simp only [hc, Bool.not_true, if_false, ite_false]
    rw [contentsList, storeItems, contentsList, storeItems]
    have h0 : List.Perm (o.queue ++ [x]) (x :: o.queue) := by
      have h1 : List.Perm (o.queue ++ x :: []) (x :: (o.queue ++ [])) := List.perm_middle
      simp only [List.append_nil] at h1
      exact h1
    exact (h0.append_left _).trans List.perm_middle

end OIOO

namespace OIOO

variable {T : Type}

/-- A successful `one_out` removes exactly the returned item from the
container contents. -/
theorem contentsList_one_out (o : OIOO T) (k : Nat) (v : T) (o' : OIOO T) (h : WF o)
    (hk : k < o.occupied_count) (heq : o.one_out k = some (some v, o')) :
    List.Perm (contentsList o) (v :: contentsList o') := by
  obtain ⟨items, hst⟩ := h.blocky
  have hkk : k < items.length := by
    rwa [occupied_count_blocky o items hst] at hk
  have hq : o.queue ≠ [] → items.length = o.capacity := by
    intro hn
    rw [← occupied_count_blocky o items hst]
    exact h.queue_cap hn
  rw [one_out_blocky o items k hst h.sd_eq hkk hq] at heq
  simp only [Option.some.injEq, Prod.mk.injEq] at heq
  obtain ⟨⟨hv, ho⟩, -⟩ := And.intro heq trivial
  rw [← ho, ← hv]
  have hco : contentsList { o with
      store := blocksOf 6 ((items.take k ++ items.drop (k + 1)) ++ o.queue.take 1),
      queue := o.queue.drop 1 } =
      ((items.take k ++ items.drop (k + 1)) ++ o.queue.take 1) ++ o.queue.drop 1 := by
    rw [contentsList,
      storeItems_blocky _ ((items.take k ++ items.drop (k + 1)) ++ o.queue.take 1) rfl]
  rw [hco, contentsList, storeItems_blocky o items hst]
  have hsplit : items = items.take k ++ items[k] :: items.drop (k + 1) := by
    conv_lhs => rw [← List.take_append_drop k items]
    rw [List.drop_eq_getElem_cons hkk]
  have hqsplit : o.queue = o.queue.take 1 ++ o.queue.drop 1 :=
    (List.take_append_drop 1 o.queue).symm
  have key : List.Perm
      ((items.take k ++ items[k] :: items.drop (k + 1)) ++ (o.queue.take 1 ++ o.queue.drop 1))
      (items[k] :: ((items.take k ++ items.drop (k + 1)) ++ (o.queue.take 1 ++ o.queue.drop 1)))
      := List.perm_middle.append_right _
  conv_lhs => rw [hsplit, hqsplit]
  simp only [List.append_assoc] at key ⊢
  exact key

/-- All complete drain runs: `Drains o vs` holds iff repeatedly calling
`one_out` with in-range random draws, stopping when the store is empty (the
next call then reports absence), can return exactly the list `vs`. -/
inductive Drains : OIOO T → List T → Prop where
  | done (o : OIOO T) : o.store = [] → Drains o []
  | step (o : OIOO T) (k : Nat) (v : T) (o' : OIOO T) (vs : List T) :
      k < o.occupied_count → o.one_out k = some (some v, o') →
      Drains o' vs → Drains o (v :: vs)

/-- On a well-formed container with non-zero capacity, every complete drain
run returns a permutation of the container contents. -/
theorem drains_perm (o : OIOO T) (vs : List T) (hd : Drains o vs) :
    WF o → o.capacity ≠ 0 → List.Perm vs (contentsList o) := by
  induction hd with
  | done o hnil =>
    intro h hcap
    have hocc : o.occupied_count = 0 := by simp [occupied_count, hnil]
    have hqn : o.queue = [] := by
      by_contra hn
      have h2 := h.queue_cap hn
      rw [hocc] at h2
      exact hcap h2.symm
    rw [contentsList, storeItems, hnil, hqn]
    simp
  | step o k v o' vs hk heq hdr ih =>
    intro h hcap
    have hwf' : WF o' := WF_one_out o k (some v) o' h (fun _ => hk) heq
    have hcap' : o'.capacity ≠ 0 := by
      rw [capacity_one_out o k (some v) o' heq]
      exact hcap
    have hperm := contentsList_one_out o k v o' h hk heq
    exact ((ih hwf' hcap').cons v).trans hperm.symm

end OIOO

namespace OIOO

variable {T : Type}

@[simp] theorem blocksOf_eq_nil (sd : Nat) (xs : List T) :
    blocksOf sd xs = [] ↔ xs = [] := by
  cases xs with
  | nil => simp
  | cons x xs =>
    rw [blocksOf_cons]
    simp

theorem reachable_one_in_all (o : OIOO T) (xs : List T) (h : Reachable o) :
    Reachable (one_in_all o xs) := by
  induction xs generalizing o with
  | nil => exact h
  | cons x xs ih => exact ih _ (Reachable.step_in o x h)

end OIOO

open OIOO

/-- C2 (confirmed): construction computes the capacity once and freezes it —
in Phase One with basis `b` it is `b / 4` when enabled and `0` otherwise, in
Phase Two it is `b / 2` (truncating division), and neither `one_in` nor a
completed `one_out` ever changes it. -/
theorem claim_C2 (T : Type) (b : Nat) (e : Bool) :
    (OIOO.new T (Phase.one b e)).capacity = (if e then b / 4 else 0) ∧
    (OIOO.new T (Phase.two b)).capacity = b / 2 ∧
    (∀ (o : OIOO T) (x : T), (o.one_in x).capacity = o.capacity) ∧
    (∀ (o : OIOO T) (k : Nat) (r : Option T) (o' : OIOO T),
      o.one_out k = some (r, o') → o'.capacity = o.capacity) :=
  ⟨rfl, rfl, fun o x => capacity_one_in o x, fun o k r o' h => capacity_one_out o k r o' h⟩

/-- Witness for C2 at concrete inputs, including a completed `one_out` call. -/
theorem claim_C2_witness :
    (OIOO.new Nat (Phase.one 9 true)).capacity = (if true then 9 / 4 else 0) ∧
    (OIOO.mk ([] : List (Option Nat)) [] 6 1).capacity =
      (OIOO.one_in_all (OIOO.new Nat (Phase.two 2)) [5]).capacity := by
  constructor
  · exact (claim_C2 Nat 9 true).1
  · exact (claim_C2 Nat 9 true).2.2.2 (OIOO.one_in_all (OIOO.new Nat (Phase.two 2)) [5]) 0
      (some 5) (OIOO.mk [] [] 6 1) rfl

/-- C3 (confirmed): `one_in` never fails (it is a total function on states);
on any well-formed container state, when the occupied-block count is below
the capacity it appends one occupied slot followed by exactly 6 empty slots
to the end of the store and leaves the queue unchanged, and otherwise it
appends the item to the end of the overflow queue and leaves the store
unchanged. -/
theorem claim_C3 (o : OIOO T) (x : T) (h : WF o) :
    (o.occupied_count < o.capacity →
      (o.one_in x).store = o.store ++ some x :: List.replicate 6 none ∧
      (o.one_in x).queue = o.queue) ∧
    (o.capacity ≤ o.occupied_count →
      (o.one_in x).queue = o.queue ++ [x] ∧ (o.one_in x).store = o.store) := by
  obtain ⟨items, hst⟩ := h.blocky
  have hocc := occupied_count_blocky o items hst
  constructor
  · intro hlt
    rw [hocc] at hlt
    rw [one_in_of_lt o x items hst h.sd_eq hlt]
    constructor
    · show blocksOf 6 (items ++ [x]) = o.store ++ some x :: List.replicate 6 none
      rw [blocksOf_append, hst, blocksOf_cons]
      simp
    · rfl
  · intro hge
    rw [hocc] at hge
    rw [one_in_of_ge o x items hst h.sd_eq hge]
    exact ⟨rfl, rfl⟩

/-- Witness for C3: a fresh Phase Two container with capacity 1 takes the
item into the store with its six spacing slots. -/
theorem claim_C3_witness :
    ((OIOO.new Nat (Phase.two 2)).one_in 3).store =
      (OIOO.new Nat (Phase.two 2)).store ++ some 3 :: List.replicate 6 none ∧
    ((OIOO.new Nat (Phase.two 2)).one_in 3).queue = (OIOO.new Nat (Phase.two 2)).queue :=
  (claim_C3 (OIOO.new Nat (Phase.two 2)) 3 (WF_new Nat (Phase.two 2))).1 (by decide)

/-- C6 counterexample: with capacity 0 (Phase One, non-essential), inserting
one item yields a reachable state whose store holds no occupied slot while
the overflow queue is non-empty — the claim fails as stated. -/
theorem claim_C6_cex :
    Reachable ((OIOO.new Nat (Phase.one 0 false)).one_in 7) ∧
    ((OIOO.new Nat (Phase.one 0 false)).one_in 7).occupied_count = 0 ∧
    ((OIOO.new Nat (Phase.one 0 false)).one_in 7).queue ≠ [] :=
  ⟨Reachable.step_in _ 7 (Reachable.base _), by decide, by decide⟩

/-- C6 (corrected): in every reachable state of a container whose capacity is
non-zero, an empty store (no occupied slot) forces an empty overflow queue.
(The unamended claim fails when the capacity is 0, e.g. Phase One with
`is_essential = false`: items then queue up while the store stays empty.) -/
theorem claim_C6 (o : OIOO T) (h : Reachable o) (hcap : o.capacity ≠ 0)
    (hocc : o.occupied_count = 0) : o.queue = [] := by
  have hw := reachable_wf o h
  by_contra hn
  have h2 := hw.queue_cap hn
  rw [hocc] at h2
  exact hcap h2.symm

/-- Witness for C6 on a fresh capacity-1 container. -/
theorem claim_C6_witness : (OIOO.new Nat (Phase.two 2)).queue = [] :=
  claim_C6 (OIOO.new Nat (Phase.two 2)) (Reachable.base (Phase.two 2)) (by decide) (by decide)

/-- C7 (confirmed): after any reachable sequence of operations the store
length equals the occupied-slot count times `S + 1` where the spacing
constant `S` is 6 — no partial or stray padding survives any operation. -/
theorem claim_C7 (o : OIOO T) (h : Reachable o) :
    o.store.length = o.occupied_count * (6 + 1) ∧ o.social_distance = 6 := by
  have hw := reachable_wf o h
  obtain ⟨items, hst⟩ := hw.blocky
  refine ⟨?_, hw.sd_eq⟩
  rw [occupied_count_blocky o items hst, hst, length_blocksOf]

/-- Witness for C7 after one insertion. -/
theorem claim_C7_witness :
    ((OIOO.new Nat (Phase.two 4)).one_in 5).store.length =
      ((OIOO.new Nat (Phase.two 4)).one_in 5).occupied_count * (6 + 1) ∧
    ((OIOO.new Nat (Phase.two 4)).one_in 5).social_distance = 6 :=
  claim_C7 ((OIOO.new Nat (Phase.two 4)).one_in 5)
    (Reachable.step_in _ 5 (Reachable.base (Phase.two 4)))

/-- C8 (confirmed): in every reachable state (hence after every completed
public operation, including the refill step of `one_out`), a non-empty
overflow queue forces the store to be exactly at capacity. -/
theorem claim_C8 (o : OIOO T) (h : Reachable o) (hq : o.queue ≠ []) :
    o.occupied_count = o.capacity :=
  (reachable_wf o h).queue_cap hq

/-- Witness for C8 on a capacity-0 container holding one queued item. -/
theorem claim_C8_witness :
    ((OIOO.new Nat (Phase.one 0 false)).one_in 5).occupied_count =
      ((OIOO.new Nat (Phase.one 0 false)).one_in 5).capacity :=
  claim_C8 ((OIOO.new Nat (Phase.one 0 false)).one_in 5)
    (Reachable.step_in _ 5 (Reachable.base _)) (by decide)

/-- C9 (confirmed): in every reachable state, with the draw in the range
`gen_range` actually produces, `one_out` reports absence exactly when the
store holds no occupied slot, and such an absent call returns the container
completely unchanged (same store, queue and capacity). -/
theorem claim_C9 (o : OIOO T) (k : Nat) (h : Reachable o)
    (hvalid : o.store ≠ [] → k < o.occupied_count) :
    ((o.one_out k).map Prod.fst = some none ↔ o.occupied_count = 0) ∧
    (o.occupied_count = 0 → o.one_out k = some (none, o)) := by
  have hw := reachable_wf o h
  obtain ⟨items, hst⟩ := hw.blocky
  have hocc := occupied_count_blocky o items hst
  by_cases h0 : items = []
  · subst h0
    have hnil : o.store = [] := by rw [hst]; rfl
    rw [one_out_of_store_nil o k hnil]
    constructor
    · simp [hocc]
    · intro _
      rfl
  · have hne : o.store ≠ [] := by
      rw [hst]
      simp only [ne_eq, blocksOf_eq_nil]
      exact h0
    have hk : k < items.length := by
      have := hvalid hne
      rwa [hocc] at this
    have hq : o.queue ≠ [] → items.length = o.capacity := by
      intro hn
      rw [← hocc]
      exact hw.queue_cap hn
    rw [one_out_blocky o items k hst hw.sd_eq hk hq]
    constructor
    · simp only [Option.map_some, Option.some.injEq, hocc, List.length_eq_zero]
      constructor
      · intro hc
        simp at hc
      · intro hc
        exact absurd hc h0
    · intro hc
      rw [hocc] at hc
      exact absurd (List.length_eq_zero.mp hc) h0

/-- Witness for C9 on a fresh (empty) container. -/
theorem claim_C9_witness :
    (((OIOO.new Nat (Phase.two 6)).one_out 0).map Prod.fst = some none ↔
      (OIOO.new Nat (Phase.two 6)).occupied_count = 0) ∧
    ((OIOO.new Nat (Phase.two 6)).occupied_count = 0 →
      (OIOO.new Nat (Phase.two 6)).one_out 0 =
        some (none, OIOO.new Nat (Phase.two 6))) :=
  claim_C9 (OIOO.new Nat (Phase.two 6)) 0 (Reachable.base (Phase.two 6))
    (fun hn => absurd rfl hn)

/-- C10 (confirmed): in every reachable state every occupied slot sits at an
index that is a multiple of `S + 1 = 7`, and whenever the store is non-empty
and the draw `k` is in the range `gen_range` produces, `one_out` completes
without a panic and returns an item — the computed index `k * 7` lands on an
occupied slot, the absence branch for a non-empty store is unreachable, and
the 7-slot drain stays inside the store's bounds (a panic would be the outer
`none`). -/
theorem claim_C10 (o : OIOO T) (h : Reachable o) :
    (∀ (i : Nat) (x : T), o.store[i]? = some (some x) → i % 7 = 0) ∧
    (o.store ≠ [] → ∀ k, k < o.occupied_count →
      ∃ (v : T) (o' : OIOO T), o.one_out k = some (some v, o')) := by
  have hw := reachable_wf o h
  obtain ⟨items, hst⟩ := hw.blocky
  constructor
  · intro i x hx
    rw [hst] at hx
    exact isSome_blocksOf_mod 6 hx
  · intro hne k hk
    have hkk : k < items.length := by
      rwa [occupied_count_blocky o items hst] at hk
    have hq : o.queue ≠ [] → items.length = o.capacity := by
      intro hn
      rw [← occupied_count_blocky o items hst]
      exact hw.queue_cap hn
    exact ⟨items.get ⟨k, hkk⟩, _, one_out_blocky o items k hst hw.sd_eq hkk hq⟩

/-- Witness for C10 on a container holding one item. -/
theorem claim_C10_witness :
    (∀ (i : Nat) (x : Nat),
      ((OIOO.new Nat (Phase.two 2)).one_in 5).store[i]? = some (some x) → i % 7 = 0) ∧
    (((OIOO.new Nat (Phase.two 2)).one_in 5).store ≠ [] → ∀ k,
      k < ((OIOO.new Nat (Phase.two 2)).one_in 5).occupied_count →
      ∃ (v : Nat) (o' : OIOO Nat),
        ((OIOO.new Nat (Phase.two 2)).one_in 5).one_out k = some (some v, o')) :=
  claim_C10 ((OIOO.new Nat (Phase.two 2)).one_in 5)
    (Reachable.step_in _ 5 (Reachable.base (Phase.two 2)))

/-- C4 (confirmed): on any well-formed state with at least one occupied slot
and any draw `k` below the occupied count, `one_out` removes and returns the
`k`-th occupied item in store order, deletes that block (the occupied slot
and its six trailing empties) compacting the remaining blocks in order with
no gap (the new store is again a gapless block layout), and moves the
queue's front item (if any) into the store before returning. -/
theorem claim_C4 (o : OIOO T) (k : Nat) (h : WF o) (hk : k < o.occupied_count) :
    ∃ (v : T) (o' : OIOO T),
      o.one_out k = some (some v, o') ∧
      (storeItems o)[k]? = some v ∧
      storeItems o' = ((storeItems o).take k ++ (storeItems o).drop (k + 1)) ++ o.queue.take 1 ∧
      o'.queue = o.queue.drop 1 ∧
      o'.store.length = (storeItems o').length * 7 := by
  obtain ⟨items, hst⟩ := h.blocky
  have hsi := storeItems_blocky o items hst
  have hkk : k < items.length := by
    rwa [occupied_count_blocky o items hst] at hk
  have hq : o.queue ≠ [] → items.length = o.capacity := by
    intro hn
    rw [← occupied_count_blocky o items hst]
    exact h.queue_cap hn
  refine ⟨items[k], _, one_out_blocky o items k hst h.sd_eq hkk hq, ?_, ?_, ?_, ?_⟩
  · rw [hsi, List.getElem?_eq_getElem hkk]
  · rw [hsi]
    exact storeItems_blocky _ ((items.take k ++ items.drop (k + 1)) ++ o.queue.take 1) rfl
  · rfl
  · rw [storeItems_blocky _ ((items.take k ++ items.drop (k + 1)) ++ o.queue.take 1) rfl]
    simp

/-- Witness for C4: capacity-1 container holding item 5 with item 9 queued;
the draw 0 extracts 5 and pulls 9 into the store. -/
theorem claim_C4_witness :
    ∃ (v : Nat) (o' : OIOO Nat),
      (OIOO.one_in_all (OIOO.new Nat (Phase.two 2)) [5, 9]).one_out 0 = some (some v, o') ∧
      (storeItems (OIOO.one_in_all (OIOO.new Nat (Phase.two 2)) [5, 9]))[0]? = some v ∧
      storeItems o' =
        ((storeItems (OIOO.one_in_all (OIOO.new Nat (Phase.two 2)) [5, 9])).take 0 ++
          (storeItems (OIOO.one_in_all (OIOO.new Nat (Phase.two 2)) [5, 9])).drop 1) ++
        (OIOO.one_in_all (OIOO.new Nat (Phase.two 2)) [5, 9]).queue.take 1 ∧
      o'.queue = (OIOO.one_in_all (OIOO.new Nat (Phase.two 2)) [5, 9]).queue.drop 1 ∧
      o'.store.length = (storeItems o').length * 7 :=
  claim_C4 (OIOO.one_in_all (OIOO.new Nat (Phase.two 2)) [5, 9]) 0
    (reachable_wf _ (reachable_one_in_all _ [5, 9] (Reachable.base (Phase.two 2))))
    (by decide)

/-- C1 counterexample: with capacity 0 (Phase One, non-essential) the single
inserted item 7 goes to the queue, the store stays empty, so the very first
`one_out` reports absence and the complete drain run returns `[]`, which is
not the multiset of the inserted items `[7]`. -/
theorem claim_C1_cex :
    Drains (OIOO.one_in_all (OIOO.new Nat (Phase.one 0 false)) [7]) [] ∧
    (([] : List Nat) : Multiset Nat) ≠ (([7] : List Nat) : Multiset Nat) := by
  constructor
  · exact Drains.done _ rfl
  · intro hc
    rw [Multiset.coe_eq_coe] at hc
    simpa using hc.length_eq

/-- C1 (corrected): for every *non-zero* capacity, feeding any items into a
fresh container and then calling `one_out` (with in-range draws) until it
reports absence returns exactly the multiset of the inserted values, each
exactly once.  (The unamended claim fails for capacity 0, where inserted
items stay in the queue forever and the drain returns nothing.) -/
theorem claim_C1 (phase : Phase) (xs vs : List T)
    (hcap : (OIOO.new T phase).capacity ≠ 0)
    (hd : Drains (OIOO.one_in_all (OIOO.new T phase) xs) vs) :
    (vs : Multiset T) = (xs : Multiset T) := by
  have hr : Reachable (OIOO.one_in_all (OIOO.new T phase) xs) :=
    reachable_one_in_all _ xs (Reachable.base phase)
  have hw := reachable_wf _ hr
  have hcap' : (OIOO.one_in_all (OIOO.new T phase) xs).capacity ≠ 0 := by
    rw [one_in_all_new]
    exact hcap
  have hperm := drains_perm _ vs hd hw hcap'
  have hcontents : contentsList (OIOO.one_in_all (OIOO.new T phase) xs) = xs := by
    rw [one_in_all_new, contentsList,
      storeItems_blocky _ (xs.take (OIOO.new T phase).capacity) rfl]
    exact List.take_append_drop _ xs
  rw [Multiset.coe_eq_coe]
  rw [hcontents] at hperm
  exact hperm

/-- Witness for C1: capacity 1, one inserted item, one drain step. -/
theorem claim_C1_witness :
    (([5] : List Nat) : Multiset Nat) = (([5] : List Nat) : Multiset Nat) :=
  claim_C1 (Phase.two 2) [5] [5] (by decide)
    (Drains.step _ 0 5 (OIOO.mk ([] : List (Option Nat)) [] 6 1) [] (by decide) rfl
      (Drains.done _ rfl))

/-- C5 counterexample: with capacity 0 (Phase One, non-essential), inserting
`C + 1 = 1` item leaves the queue non-empty, yet the subsequent `one_out`
call returns absence and leaves the state unchanged instead of removing and
returning an item from the store — the release part of the claim fails as
stated. -/
theorem claim_C5_cex :
    (OIOO.one_in_all (OIOO.new Nat (Phase.one 0 false)) [7]).queue ≠ [] ∧
    (OIOO.one_in_all (OIOO.new Nat (Phase.one 0 false)) [7]).one_out 0 =
      some (none, OIOO.one_in_all (OIOO.new Nat (Phase.one 0 false)) [7]) := by
  constructor
  · decide
  · rfl

/-- C5 (corrected): inserting `C + j` items (j ≥ 1) into a fresh container
leaves exactly `j` items in the queue and `C` occupied slots; and — provided
the capacity is non-zero — every `one_out` call on a well-formed state with a
non-empty queue and an in-range draw `k` removes the `k`-th occupied item
from the store and returns exactly that item, refills the store with the
queue's front item, and keeps the occupied count constant (at capacity)
until the queue is exhausted.  (The
release part of the unamended claim fails for capacity 0, where `one_out`
returns absence while the queue is non-empty.) -/
theorem claim_C5 (phase : Phase) (xs : List T) (j : Nat) (hj : 1 ≤ j)
    (hlen : xs.length = (OIOO.new T phase).capacity + j) :
    ((OIOO.one_in_all (OIOO.new T phase) xs).queue.length = j ∧
     (OIOO.one_in_all (OIOO.new T phase) xs).occupied_count =
       (OIOO.new T phase).capacity) ∧
    (∀ (o : OIOO T) (k : Nat), WF o → o.capacity ≠ 0 → o.queue ≠ [] →
      k < o.occupied_count →
      ∃ (v : T) (o' : OIOO T),
        o.one_out k = some (some v, o') ∧
        (storeItems o)[k]? = some v ∧
        o'.occupied_count = o.occupied_count ∧
        o.occupied_count = o.capacity ∧
        o'.queue = o.queue.drop 1 ∧
        storeItems o' =
          ((storeItems o).take k ++ (storeItems o).drop (k + 1)) ++ o.queue.take 1) := by
  constructor
  · rw [one_in_all_new]
    constructor
    · show (xs.drop (OIOO.new T phase).capacity).length = j
      rw [List.length_drop]
      omega
    · rw [occupied_count_blocky _ (xs.take (OIOO.new T phase).capacity) rfl]
      rw [List.length_take]
      omega
  · intro o k hw hcap hqn hk
    obtain ⟨items, hst⟩ := hw.blocky
    have hkk : k < items.length := by
      rwa [occupied_count_blocky o items hst] at hk
    have hqq : items.length = o.capacity := by
      rw [← occupied_count_blocky o items hst]
      exact hw.queue_cap hqn
    refine ⟨items[k], _, one_out_blocky o items k hst hw.sd_eq hkk (fun _ => hqq),
      ?_, ?_, ?_, ?_, ?_⟩
    · rw [storeItems_blocky o items hst, List.getElem?_eq_getElem hkk]
    · rw [occupied_count_blocky _ ((items.take k ++ items.drop (k + 1)) ++ o.queue.take 1) rfl,
        occupied_count_blocky o items hst]
      cases hqe : o.queue with
      | nil => exact absurd hqe hqn
      | cons q qs =>
        simp only [hqe, List.take_succ_cons, List.take_zero, List.length_append,
          List.length_take, List.length_drop, List.length_cons, List.length_nil]
        omega
    · rw [occupied_count_blocky o items hst]
      exact hqq
    · rfl
    · rw [storeItems_blocky o items hst]
      exact storeItems_blocky _ ((items.take k ++ items.drop (k + 1)) ++ o.queue.take 1) rfl

/-- Witness for C5: capacity 1, two inserted items (so j = 1), then one
`one_out` call on the resulting state with queued item 9. -/
theorem claim_C5_witness :
    ((OIOO.one_in_all (OIOO.new Nat (Phase.two 2)) [5, 9]).queue.length = 1 ∧
     (OIOO.one_in_all (OIOO.new Nat (Phase.two 2)) [5, 9]).occupied_count =
       (OIOO.new Nat (Phase.two 2)).capacity) ∧
    (∃ (v : Nat) (o' : OIOO Nat),
      (OIOO.one_in_all (OIOO.new Nat (Phase.two 2)) [5, 9]).one_out 0 = some (some v, o') ∧
      (storeItems (OIOO.one_in_all (OIOO.new Nat (Phase.two 2)) [5, 9]))[0]? = some v ∧
      o'.occupied_count = (OIOO.one_in_all (OIOO.new Nat (Phase.two 2)) [5, 9]).occupied_count ∧
      (OIOO.one_in_all (OIOO.new Nat (Phase.two 2)) [5, 9]).occupied_count =
        (OIOO.one_in_all (OIOO.new Nat (Phase.two 2)) [5, 9]).capacity ∧
      o'.queue = (OIOO.one_in_all (OIOO.new Nat (Phase.two 2)) [5, 9]).queue.drop 1 ∧
      storeItems o' =
        ((storeItems (OIOO.one_in_all (OIOO.new Nat (Phase.two 2)) [5, 9])).take 0 ++
          (storeItems (OIOO.one_in_all (OIOO.new Nat (Phase.two 2)) [5, 9])).drop 1) ++
        (OIOO.one_in_all (OIOO.new Nat (Phase.two 2)) [5, 9]).queue.take 1) :=
  ⟨(claim_C5 (Phase.two 2) [5, 9] 1 (by decide) (by decide)).1,
   (claim_C5 (Phase.two 2) [5, 9] 1 (by decide) (by decide)).2
     (OIOO.one_in_all (OIOO.new Nat (Phase.two 2)) [5, 9]) 0
     (reachable_wf _ (reachable_one_in_all _ [5, 9] (Reachable.base (Phase.two 2))))
     (by decide) (by decide) (by decide)⟩
